import Mathlib

set_option maxRecDepth 40000

/-!
Verification of the blockchain voting ledger in
`src/apps/blockchain/blockchain_service.py` (classes `Block`,
`VotingBlockchain`, `BlockchainService`).

The embedding is executable: SHA-256 and the canonical JSON serialization
(`json.dumps(..., sort_keys=True)`) are implemented in full, so concrete
chain states can be evaluated by the kernel.  Machine-independent inputs
that the Python code draws from the environment (`datetime.now()`,
`secrets.token_hex`) become explicit string parameters.  The unbounded
proof-of-work loop `Block.mine_block` becomes a fuel-indexed function
returning `Option`.
-/

namespace OVM

/-! ## SHA-256 over byte lists (bytes are `Nat` < 256, words are `Nat` < 2^32) -/

/-- Truncation to a 32-bit word. -/
def w32 (n : Nat) : Nat := n % 4294967296

/-- 32-bit right rotation. -/
def rotr32 (n x : Nat) : Nat := w32 ((x >>> n) ||| (x <<< (32 - n)))

def smallSigma0 (x : Nat) : Nat := (rotr32 7 x) ^^^ (rotr32 18 x) ^^^ (x >>> 3)

def smallSigma1 (x : Nat) : Nat := (rotr32 17 x) ^^^ (rotr32 19 x) ^^^ (x >>> 10)

def bigSigma0 (x : Nat) : Nat := (rotr32 2 x) ^^^ (rotr32 13 x) ^^^ (rotr32 22 x)

def bigSigma1 (x : Nat) : Nat := (rotr32 6 x) ^^^ (rotr32 11 x) ^^^ (rotr32 25 x)

def chFun (x y z : Nat) : Nat := (x &&& y) ^^^ ((x ^^^ 4294967295) &&& z)

def majFun (x y z : Nat) : Nat := (x &&& y) ^^^ (x &&& z) ^^^ (y &&& z)

/-- The 64 SHA-256 round constants (FIPS 180-4, written in decimal). -/
def shaK : List Nat :=
  [1116352408, 1899447441, 3049323471, 3921009573, 961987163,
   1508970993, 2453635748, 2870763221, 3624381080, 310598401,
   607225278, 1426881987, 1925078388, 2162078206, 2614888103,
   3248222580, 3835390401, 4022224774, 264347078, 604807628,
   770255983, 1249150122, 1555081692, 1996064986, 2554220882,
   2821834349, 2952996808, 3210313671, 3336571891, 3584528711,
   113926993, 338241895, 666307205, 773529912, 1294757372,
   1396182291, 1695183700, 1986661051, 2177026350, 2456956037,
   2730485921, 2820302411, 3259730800, 3345764771, 3516065817,
   3600352804, 4094571909, 275423344, 430227734, 506948616,
   659060556, 883997877, 958139571, 1322822218, 1537002063,
   1747873779, 1955562222, 2024104815, 2227730452, 2361852424,
   2428436474, 2756734187, 3204031479, 3329325298]

/-- `k` bytes of `n`, most significant byte first. -/
def beBytes : Nat → Nat → List Nat
  | 0, _ => []
  | k + 1, n => beBytes k (n >>> 8) ++ [n % 256]

/-- SHA-256 padding: append `0x80`, zero bytes up to 56 mod 64, then the
bit length as 8 big-endian bytes. -/
def shaPad (msg : List Nat) : List Nat :=
  let z := (119 - msg.length % 64) % 64
  msg ++ [0x80] ++ List.replicate z 0 ++ beBytes 8 (8 * msg.length)

/-- Big-endian 32-bit words from bytes (length assumed a multiple of 4). -/
def bytesToWords : List Nat → List Nat
  | a :: b :: c :: d :: rest => (((a * 256 + b) * 256 + c) * 256 + d) :: bytesToWords rest
  | _ => []

/-- Split a word list into chunks of 16 (structural recursion on a fuel
bound that is always sufficient). -/
def chunks16F : Nat → List Nat → List (List Nat)
  | 0, _ => []
  | k + 1, ws => if ws = [] then [] else ws.take 16 :: chunks16F k (ws.drop 16)

/-- Split a word list into chunks of 16. -/
def chunks16 (ws : List Nat) : List (List Nat) := chunks16F ws.length ws

/-- Message-schedule extension: `acc` holds the words produced so far in
reverse; each step appends `w[i-16] + σ0(w[i-15]) + w[i-7] + σ1(w[i-2])`. -/
def extendWords : Nat → List Nat → List Nat
  | 0, acc => acc.reverse
  | k + 1, acc =>
      let nw := w32 (acc.getD 15 0 + smallSigma0 (acc.getD 14 0) +
                     acc.getD 6 0 + smallSigma1 (acc.getD 1 0))
      extendWords k (nw :: acc)

/-- Extend 16 words to the 64-word message schedule. -/
def schedule (ws : List Nat) : List Nat := extendWords 48 ws.reverse

/-- The eight 32-bit working variables of the compression function. -/
structure Sha8 where
  a : Nat
  b : Nat
  c : Nat
  d : Nat
  e : Nat
  f : Nat
  g : Nat
  h : Nat
deriving Repr, DecidableEq

/-- Initial SHA-256 hash value (FIPS 180-4, written in decimal). -/
def shaInit : Sha8 :=
  ⟨1779033703, 3144134277, 1013904242, 2773480762,
   1359893119, 2600822924, 528734635, 1541459225⟩

/-- One compression round with round constant `kw.1` and schedule word `kw.2`. -/
def shaRound (st : Sha8) (kw : Nat × Nat) : Sha8 :=
  let t1 := w32 (st.h + bigSigma1 st.e + chFun st.e st.f st.g + kw.1 + kw.2)
  let t2 := w32 (bigSigma0 st.a + majFun st.a st.b st.c)
  ⟨w32 (t1 + t2), st.a, st.b, st.c, w32 (st.d + t1), st.e, st.f, st.g⟩

/-- Process one 16-word chunk. -/
def processChunk (st : Sha8) (ws : List Nat) : Sha8 :=
  let fin := (shaK.zip (schedule ws)).foldl shaRound st
  ⟨w32 (st.a + fin.a), w32 (st.b + fin.b), w32 (st.c + fin.c), w32 (st.d + fin.d),
   w32 (st.e + fin.e), w32 (st.f + fin.f), w32 (st.g + fin.g), w32 (st.h + fin.h)⟩

/-- SHA-256 digest (32 bytes) of a byte list. -/
def sha256bytes (msg : List Nat) : List Nat :=
  let fin := (chunks16 (bytesToWords (shaPad msg))).foldl processChunk shaInit
  beBytes 4 fin.a ++ beBytes 4 fin.b ++ beBytes 4 fin.c ++ beBytes 4 fin.d ++
  beBytes 4 fin.e ++ beBytes 4 fin.f ++ beBytes 4 fin.g ++ beBytes 4 fin.h

/-- Lowercase hex digit. -/
def hexDigit (n : Nat) : Char :=
  if n < 10 then Char.ofNat (48 + n) else Char.ofNat (87 + n)

/-- Lowercase hex of a byte list. -/
def bytesToHex (bs : List Nat) : String :=
  ⟨bs.flatMap fun b => [hexDigit (b / 16), hexDigit (b % 16)]⟩

/-- UTF-8 encoding of one character. -/
def utf8Char (c : Char) : List Nat :=
  let n := c.toNat
  if n < 0x80 then [n]
  else if n < 0x800 then [0xc0 + n / 64, 0x80 + n % 64]
  else if n < 0x10000 then [0xe0 + n / 4096, 0x80 + n / 64 % 64, 0x80 + n % 64]
  else [0xf0 + n / 262144, 0x80 + n / 4096 % 64, 0x80 + n / 64 % 64, 0x80 + n % 64]

/-- UTF-8 bytes of a string. -/
def utf8Bytes (s : String) : List Nat := s.data.flatMap utf8Char

/-- `hashlib.sha256(s.encode()).hexdigest()`. -/
def sha256hex (s : String) : String := bytesToHex (sha256bytes (utf8Bytes s))

/-! ## Canonical JSON serialization (`json.dumps(..., sort_keys=True)`)

Default separators: `", "` between members and `": "` after keys; strings
are escaped exactly as CPython json does with the default
`ensure_ascii=True` (ASCII printables pass through, the two-character
escapes for quote, backslash and the classic control characters, `\uXXXX`
with lowercase hex for everything else, surrogate pairs above the BMP). -/

/-- Four lowercase hex digits. -/
def hex4 (n : Nat) : String :=
  ⟨[hexDigit (n / 4096 % 16), hexDigit (n / 256 % 16), hexDigit (n / 16 % 16), hexDigit (n % 16)]⟩

/-- JSON escape of one character, CPython `ensure_ascii=True` behavior. -/
def jsonEscapeChar (c : Char) : String :=
  if c = '"' then "\\\""
  else if c = '\\' then "\\\\"
  else if 0x20 ≤ c.toNat && c.toNat ≤ 0x7e then String.singleton c
  else if c = '\n' then "\\n"
  else if c = '\t' then "\\t"
  else if c = '\r' then "\\r"
  else if c.toNat = 8 then "\\b"
  else if c.toNat = 12 then "\\f"
  else if c.toNat < 0x10000 then "\\u" ++ hex4 c.toNat
  else
    let m := c.toNat - 0x10000
    "\\u" ++ hex4 (0xd800 + m / 0x400) ++ "\\u" ++ hex4 (0xdc00 + m % 0x400)

/-- A JSON string literal with quotes. -/
def jsonStr (s : String) : String :=
  "\"" ++ String.join (s.data.map jsonEscapeChar) ++ "\""

/-! ## The data model of `blockchain_service.py`

The two dict payload shapes built by the source (`create_genesis_block`
and `cast_vote_to_blockchain`) become a tagged variant.  The dynamic
`data.get(key)` lookups of the source become the `get*` accessors below;
`get` of an absent key returns `none` (Python `None`). -/

/-- The `data` dict of a block: the genesis payload
`{type, message}` or the vote payload
`{type, voter_hash, election_id, candidate_hash, timestamp, transaction_id}`. -/
inductive BlockData where
  | genesis (message : String)
  | vote (voter_hash : String) (election_id : Int) (candidate_hash : String)
         (timestamp : String) (transaction_id : String)
deriving Repr, DecidableEq, Inhabited

/-- `data.get("type")` (both payload shapes carry the key). -/
def BlockData.getType : BlockData → String
  | .genesis _ => "genesis"
  | .vote _ _ _ _ _ => "vote"

/-- `data.get("election_id")`. -/
def BlockData.getElectionId : BlockData → Option Int
  | .genesis _ => none
  | .vote _ eid _ _ _ => some eid

/-- `data.get("voter_hash")`. -/
def BlockData.getVoterHash : BlockData → Option String
  | .genesis _ => none
  | .vote vh _ _ _ _ => some vh

/-- `data.get("candidate_hash")`. -/
def BlockData.getCandidateHash : BlockData → Option String
  | .genesis _ => none
  | .vote _ _ ch _ _ => some ch

/-- `json.dumps(data, sort_keys=True)`: keys in sorted order
(genesis: message, type; vote: candidate_hash, election_id, timestamp,
transaction_id, type, voter_hash). -/
def BlockData.toJson : BlockData → String
  | .genesis msg =>
      "\x7b\"message\": " ++ jsonStr msg ++ ", \"type\": \"genesis\"\x7d"
  | .vote vh eid ch ts txid =>
      "\x7b\"candidate_hash\": " ++ jsonStr ch ++
      ", \"election_id\": " ++ toString eid ++
      ", \"timestamp\": " ++ jsonStr ts ++
      ", \"transaction_id\": " ++ jsonStr txid ++
      ", \"type\": \"vote\", \"voter_hash\": " ++ jsonStr vh ++ "\x7d"

/-- A block of the chain (class `Block`).  `timestamp` is the
`str(datetime.now())` captured at construction, passed in explicitly. -/
structure Block where
  index : Nat
  timestamp : String
  data : BlockData
  previous_hash : String
  nonce : Nat
  hash : String
deriving Repr, DecidableEq, Inhabited

/-- The `block_string` of `Block.calculate_hash`:
`json.dumps({index, timestamp, data, previous_hash, nonce}, sort_keys=True)`,
keys in sorted order: data, index, nonce, previous_hash, timestamp. -/
def blockString (index : Nat) (timestamp : String) (data : BlockData)
    (previous_hash : String) (nonce : Nat) : String :=
  "\x7b\"data\": " ++ data.toJson ++
  ", \"index\": " ++ toString index ++
  ", \"nonce\": " ++ toString nonce ++
  ", \"previous_hash\": " ++ jsonStr previous_hash ++
  ", \"timestamp\": " ++ jsonStr timestamp ++ "\x7d"

/-- `Block.calculate_hash`: SHA-256 hex digest of the canonical JSON of
the five non-hash fields. -/
def Block.calculate_hash (b : Block) : String :=
  sha256hex (blockString b.index b.timestamp b.data b.previous_hash b.nonce)

/-- `Block.__init__(index, timestamp, data, previous_hash)`:
nonce starts at 0 and `hash = calculate_hash()`. -/
def Block.make (index : Nat) (timestamp : String) (data : BlockData)
    (previous_hash : String) : Block :=
  { index, timestamp, data, previous_hash, nonce := 0,
    hash := sha256hex (blockString index timestamp data previous_hash 0) }

/-- Python string slicing `s[:n]`. -/
def strTake (s : String) (n : Nat) : String := ⟨s.data.take n⟩

/-- The mining target `"0" * difficulty`. -/
def minedTarget (difficulty : Nat) : String := ⟨List.replicate difficulty '0'⟩

/-- One iteration of the mining loop body:
`self.nonce += 1; self.hash = self.calculate_hash()`. -/
def Block.mine_step (b : Block) : Block :=
  { b with nonce := b.nonce + 1,
           hash := sha256hex (blockString b.index b.timestamp b.data b.previous_hash (b.nonce + 1)) }

/-- `Block.mine_block(difficulty)`: the unbounded
`while self.hash[:difficulty] != target` search, indexed by fuel (the
number of loop iterations still allowed); `none` means the search did not
finish within the fuel. -/
def Block.mine_block (difficulty : Nat) : Nat → Block → Option Block
  | 0, b =>
      if strTake b.hash difficulty = minedTarget difficulty then some b else none
  | fuel + 1, b =>
      if strTake b.hash difficulty = minedTarget difficulty then some b
      else Block.mine_block difficulty fuel b.mine_step

/-- The chain state of class `VotingBlockchain` (its two attributes). -/
structure VotingBlockchain where
  chain : List Block
  difficulty : Nat
deriving Repr, DecidableEq

/-- `VotingBlockchain.create_genesis_block` (timestamp and mining fuel
made explicit). -/
def VotingBlockchain.create_genesis_block (fuel : Nat) (now : String)
    (bc : VotingBlockchain) : Option VotingBlockchain :=
  let genesis_block := Block.make 0 now
      (BlockData.genesis "Genesis Block - Matdaan Voting System") "0"
  (Block.mine_block bc.difficulty fuel genesis_block).map
    fun g => { bc with chain := bc.chain ++ [g] }

/-- `VotingBlockchain.__init__`: empty chain, difficulty 2, then
`create_genesis_block()`. -/
def VotingBlockchain.new (fuel : Nat) (now : String) : Option VotingBlockchain :=
  VotingBlockchain.create_genesis_block fuel now { chain := [], difficulty := 2 }

/-- `VotingBlockchain.get_latest_block` (`self.chain[-1]`; `none` models
the IndexError on an empty chain). -/
def VotingBlockchain.get_latest_block (bc : VotingBlockchain) : Option Block :=
  bc.chain.getLast?

/-- `VotingBlockchain.add_block(data)`: new block at `index = len(chain)`
linked to the latest hash, mined, then appended. -/
def VotingBlockchain.add_block (fuel : Nat) (now : String) (data : BlockData)
    (bc : VotingBlockchain) : Option (Block × VotingBlockchain) :=
  match bc.get_latest_block with
  | none => none
  | some latest =>
      let new_block := Block.make bc.chain.length now data latest.hash
      (Block.mine_block bc.difficulty fuel new_block).map
        fun nb => (nb, { bc with chain := bc.chain ++ [nb] })

/-- `VotingBlockchain.is_chain_valid`: for every `i` in `range(1, len)`,
the recomputed hash matches the stored hash and `previous_hash` matches
the predecessor. -/
def VotingBlockchain.is_chain_valid (bc : VotingBlockchain) : Bool :=
  (List.range' 1 (bc.chain.length - 1)).all fun i =>
    let current_block := bc.chain.getD i default
    let previous_block := bc.chain.getD (i - 1) default
    current_block.hash == current_block.calculate_hash &&
      current_block.previous_hash == previous_block.hash

/-- `VotingBlockchain.get_block_by_hash`: first block with the exact
hash, else `None`. -/
def VotingBlockchain.get_block_by_hash (bc : VotingBlockchain)
    (block_hash : String) : Option Block :=
  bc.chain.find? fun b => b.hash == block_hash

/-- `VotingBlockchain.get_blocks_by_election`: blocks whose data has
`type == "vote"` and a matching `election_id`. -/
def VotingBlockchain.get_blocks_by_election (bc : VotingBlockchain)
    (election_id : Int) : List Block :=
  bc.chain.filter fun b =>
    b.data.getType == "vote" && b.data.getElectionId == some election_id

/-! ## `BlockchainService`

The service only wraps one `VotingBlockchain`, so its operations are
functions over that state.  Environment inputs (`datetime.now()` for the
vote payload, `datetime.now()` inside `add_block`, and
`secrets.token_hex(16)`) are explicit parameters. -/

/-- The success dict returned by `cast_vote_to_blockchain`. -/
structure CastVoteResult where
  success : Bool
  block_hash : String
  transaction_hash : String
  block_index : Nat
  timestamp : String
deriving Repr, DecidableEq

/-- `BlockchainService.cast_vote_to_blockchain(voter_id, election_id,
candidate_id)`: hashes voter and candidate ids, builds the vote payload,
appends a block via `add_block`, and returns the transaction dict. -/
def cast_vote_to_blockchain (fuel : Nat) (vote_now block_now transaction_id : String)
    (voter_id : String) (election_id candidate_id : Int)
    (bc : VotingBlockchain) : Option (CastVoteResult × VotingBlockchain) :=
  let vote_data := BlockData.vote (sha256hex voter_id) election_id
      (sha256hex (toString candidate_id)) vote_now transaction_id
  (bc.add_block fuel block_now vote_data).map fun r =>
    ({ success := true, block_hash := r.1.hash, transaction_hash := transaction_id,
       block_index := r.1.index, timestamp := r.1.timestamp }, r.2)

/-- Outcome of a dynamically-typed Python call: a returned value, a
propagating exception, or a mining search that did not finish within the
fuel. -/
inductive PyOutcome (α : Type) where
  | ok (val : α)
  | exn (msg : String)
  | fuelOut
deriving Repr, DecidableEq

/-- `cast_vote_to_blockchain` as called dynamically, where the voter id
may be `None` (a missing field): the body immediately evaluates
`voter_id.encode()`, which raises AttributeError on `None` before any
Block is built; no validation precedes it. -/
def cast_vote_dyn (fuel : Nat) (vote_now block_now transaction_id : String)
    (voter_id : Option String) (election_id candidate_id : Int)
    (bc : VotingBlockchain) : PyOutcome CastVoteResult × VotingBlockchain :=
  match voter_id with
  | none => (.exn "AttributeError", bc)
  | some v =>
      match cast_vote_to_blockchain fuel vote_now block_now transaction_id
          v election_id candidate_id bc with
      | some (r, bc') => (.ok r, bc')
      | none => (.fuelOut, bc)

/-- The two dict shapes returned by `BlockchainService.verify_vote`:
`{verified: False, message}` or
`{verified: True, is_valid_chain, block_index, timestamp, data, message}`. -/
inductive VerifyVoteResult where
  | notFound (message : String)
  | found (is_valid_chain : Bool) (block_index : Nat) (timestamp : String)
          (data : BlockData) (message : String)
deriving Repr, DecidableEq

/-- `BlockchainService.verify_vote(block_hash)`. -/
def verify_vote (block_hash : String) (bc : VotingBlockchain) : VerifyVoteResult :=
  match bc.get_block_by_hash block_hash with
  | none => .notFound "Vote not found on blockchain"
  | some block =>
      .found bc.is_chain_valid block.index block.timestamp block.data
        "Vote verified on blockchain"

/-- `vote_counts[h] = vote_counts.get(h, 0) + 1` on an insertion-ordered
dict, modelled as an association list. -/
def bumpCount (counts : List (String × Nat)) (key : String) : List (String × Nat) :=
  match counts with
  | [] => [(key, 1)]
  | (k, n) :: rest =>
      if k = key then (k, n + 1) :: rest else (k, n) :: bumpCount rest key

/-- The dict returned by `BlockchainService.get_election_results`. -/
structure ElectionResults where
  election_id : Int
  total_votes : Nat
  vote_distribution : List (String × Nat)
  blockchain_verified : Bool
deriving Repr, DecidableEq

/-- `BlockchainService.get_election_results(election_id)`: group the
election blocks by `candidate_hash` (skipping falsy values, as the
`if candidate_hash:` truthiness test does). -/
def get_election_results (election_id : Int) (bc : VotingBlockchain) : ElectionResults :=
  let blocks := bc.get_blocks_by_election election_id
  let vote_counts := blocks.foldl
    (fun counts block =>
      match block.data.getCandidateHash with
      | none => counts
      | some candidate_hash =>
          if candidate_hash = "" then counts else bumpCount counts candidate_hash)
    []
  { election_id, total_votes := blocks.length,
    vote_distribution := vote_counts, blockchain_verified := bc.is_chain_valid }

/-- `BlockchainService.has_voter_voted(voter_id, election_id)`. -/
def has_voter_voted (voter_id : String) (election_id : Int)
    (bc : VotingBlockchain) : Bool :=
  let voter_hash := sha256hex voter_id
  (bc.get_blocks_by_election election_id).any fun block =>
    block.data.getVoterHash == some voter_hash

/-! ## Reachable states

`Reachable`: every state produced from `VotingBlockchain()` by successful
`add_block` calls (any payload).  `ReachableService`: every state
produced through the service interface, i.e. by successful
`cast_vote_to_blockchain` calls. -/

/-- Chain states reachable from construction by successful `add_block`s. -/
inductive Reachable : VotingBlockchain → Prop
  | init (fuel : Nat) (now : String) (bc : VotingBlockchain) :
      VotingBlockchain.new fuel now = some bc → Reachable bc
  | step (fuel : Nat) (now : String) (data : BlockData)
      (bc : VotingBlockchain) (b : Block) (bc' : VotingBlockchain) :
      Reachable bc → bc.add_block fuel now data = some (b, bc') → Reachable bc'

/-- Chain states reachable from construction by successful `cast_vote`s. -/
inductive ReachableService : VotingBlockchain → Prop
  | init (fuel : Nat) (now : String) (bc : VotingBlockchain) :
      VotingBlockchain.new fuel now = some bc → ReachableService bc
  | cast (fuel : Nat) (vote_now block_now transaction_id voter_id : String)
      (election_id candidate_id : Int) (bc : VotingBlockchain)
      (r : CastVoteResult) (bc' : VotingBlockchain) :
      ReachableService bc →
      cast_vote_to_blockchain fuel vote_now block_now transaction_id
        voter_id election_id candidate_id bc = some (r, bc') →
      ReachableService bc'

/-! ## Concrete states for witnesses

Timestamps chosen so that the proof-of-work search at the default
difficulty 2 succeeds already at nonce 0, keeping kernel evaluation to a
handful of SHA-256 computations. -/

/-- Genesis timestamp of the sample chain. -/
def ts0 : String := "2024-06-01 10:00:00.000096"

/-- The mined genesis hash for `ts0` (nonce 0). -/
def genesisHash : String :=
  "00b115e8607a507ba425298fcdb85d910d2ebdcba1eab37fed2cb7b31ccc0ac0"

/-- The sample genesis block. -/
def genesisBlock : Block :=
  { index := 0, timestamp := ts0,
    data := BlockData.genesis "Genesis Block - Matdaan Voting System",
    previous_hash := "0", nonce := 0, hash := genesisHash }

/-- The sample chain right after construction. -/
def s0 : VotingBlockchain := { chain := [genesisBlock], difficulty := 2 }

/-- Vote payload timestamp of the sample vote. -/
def vts : String := "2024-06-01 10:05:00.000000"

/-- Block timestamp of the sample vote block. -/
def bts1 : String := "2024-06-01 10:05:00.000095"

/-- Transaction id of the sample vote. -/
def txid1 : String := "00112233445566778899aabbccddeeff"

/-- `sha256("voterA")`. -/
def voterAHash : String :=
  "e0e7d84b97f29d8caa83768ebeb391c48d8a4363d7a7c3d9871a9ed8d2128503"

/-- `sha256("7")`. -/
def cand7Hash : String :=
  "7902699be42c8a8e46fbbb4501726517e86b22c56a189f7625a6da49081b2451"

/-- The mined hash of the sample vote block (nonce 0). -/
def voteHash1 : String :=
  "00bf6c29629f77cbcd02e1c108f1360655e565bb55edbede5ea0cc0ce384abb6"

/-- The sample vote payload. -/
def voteData1 : BlockData := BlockData.vote voterAHash 1 cand7Hash vts txid1

/-- The sample vote block. -/
def voteBlock1 : Block :=
  { index := 1, timestamp := bts1, data := voteData1,
    previous_hash := genesisHash, nonce := 0, hash := voteHash1 }

/-- The sample chain after one cast vote. -/
def s1 : VotingBlockchain := { chain := [genesisBlock, voteBlock1], difficulty := 2 }

/-- The transaction dict of the sample vote. -/
def castResult1 : CastVoteResult :=
  { success := true, block_hash := voteHash1, transaction_hash := txid1,
    block_index := 1, timestamp := bts1 }

/-- A genesis block whose `data` was altered after mining while the
stored hash was kept (the tampering scenario of the spec). -/
def tamperedGenesis : Block :=
  { genesisBlock with data := BlockData.genesis "tampered" }

/-- A chain state holding only the tampered genesis block. -/
def tamperedChain : VotingBlockchain :=
  { chain := [tamperedGenesis], difficulty := 2 }

/-! ## The chain invariant -/

/-- The well-formed-chain invariant, stated structurally: starting at
index `n` with expected predecessor hash `p`, every block carries the
running index, links to its predecessor, and stores the recomputed hash
of its own fields. -/
inductive GoodFrom : Nat → String → List Block → Prop
  | nil (n : Nat) (p : String) : GoodFrom n p []
  | cons (n : Nat) (p : String) (b : Block) (rest : List Block)
      (hidx : b.index = n) (hprev : b.previous_hash = p)
      (hhash : b.hash = b.calculate_hash)
      (hrest : GoodFrom (n + 1) b.hash rest) : GoodFrom n p (b :: rest)

/-- The hash a block appended after `l` must link to: the hash of the
last block of `l`, or `p` when `l` is empty. -/
def lastHashD (p : String) (l : List Block) : String :=
  match l.getLast? with
  | none => p
  | some b => b.hash

/-! ## Supporting lemmas -/

lemma Block.make_hash_correct (index : Nat) (timestamp : String) (data : BlockData)
    (previous_hash : String) :
    (Block.make index timestamp data previous_hash).hash =
      (Block.make index timestamp data previous_hash).calculate_hash := rfl

lemma Block.mine_step_hash_correct (b : Block) :
    b.mine_step.hash = b.mine_step.calculate_hash := rfl

/-- What a successful mining run guarantees: the pre-nonce fields are
untouched, the result meets the difficulty target, and its stored hash is
the recomputed hash of its fields (either it is the input block
unchanged, or the last loop iteration just recomputed it). -/
lemma mine_block_spec (d : Nat) :
    ∀ (fuel : Nat) (b b' : Block), Block.mine_block d fuel b = some b' →
      b'.index = b.index ∧ b'.timestamp = b.timestamp ∧ b'.data = b.data ∧
      b'.previous_hash = b.previous_hash ∧ strTake b'.hash d = minedTarget d ∧
      (b' = b ∨ b'.hash = b'.calculate_hash) := by
  intro fuel
  induction fuel with
  | zero =>
      intro b b' h
      simp only [Block.mine_block] at h
      split at h
      · next hc =>
          injection h with h
          subst h
          exact ⟨rfl, rfl, rfl, rfl, hc, Or.inl rfl⟩
      · exact absurd h (by simp)
  | succ f ih =>
      intro b b' h
      simp only [Block.mine_block] at h
      split at h
      · next hc =>
          injection h with h
          subst h
          exact ⟨rfl, rfl, rfl, rfl, hc, Or.inl rfl⟩
      · obtain ⟨h1, h2, h3, h4, h5, h6⟩ := ih b.mine_step b' h
        refine ⟨h1, h2, h3, h4, h5, Or.inr ?_⟩
        rcases h6 with rfl | h6
        · exact Block.mine_step_hash_correct b
        · exact h6

/-- Successful mining always hands back a hash-correct block when the
input block was hash-correct. -/
lemma mine_block_hash_correct {d fuel : Nat} {b b' : Block}
    (hb : b.hash = b.calculate_hash) (h : Block.mine_block d fuel b = some b') :
    b'.hash = b'.calculate_hash := by
  rcases (mine_block_spec d fuel b b' h).2.2.2.2.2 with rfl | h6
  · exact hb
  · exact h6

lemma lastHashD_cons (p : String) (b : Block) (rest : List Block) :
    lastHashD p (b :: rest) = lastHashD b.hash rest := by
  cases rest with
  | nil => rfl
  | cons c r =>
      simp only [lastHashD, List.getLast?_cons_cons]
      cases hg : (c :: r).getLast? with
      | none => exact absurd (List.getLast?_eq_none_iff.mp hg) (by simp)
      | some x => rfl

/-- Appending a correctly linked, correctly indexed, hash-correct block
preserves the invariant. -/
lemma GoodFrom.append_block {n : Nat} {p : String} {l : List Block}
    (hg : GoodFrom n p l) :
    ∀ nb : Block, nb.index = n + l.length → nb.previous_hash = lastHashD p l →
      nb.hash = nb.calculate_hash → GoodFrom n p (l ++ [nb]) := by
  induction hg with
  | nil n p =>
      intro nb hidx hprev hhash
      simp only [List.nil_append]
      exact .cons n p nb [] (by simpa using hidx) (by simpa [lastHashD] using hprev)
        hhash (.nil _ _)
  | cons n p b rest hidx hprev hhash hrest ih =>
      intro nb hidx2 hprev2 hhash2
      simp only [List.cons_append]
      refine .cons n p b (rest ++ [nb]) hidx hprev hhash ?_
      apply ih
      · simp only [List.length_cons] at hidx2
        omega
      · rw [hprev2, lastHashD_cons]
      · exact hhash2

lemma GoodFrom.hash_correct {n : Nat} {p : String} {l : List Block}
    (h : GoodFrom n p l) : ∀ b ∈ l, b.hash = b.calculate_hash := by
  induction h with
  | nil => simp
  | cons n p b rest hidx hprev hhash hrest ih =>
      intro c hc
      rcases List.mem_cons.mp hc with rfl | hc
      · exact hhash
      · exact ih c hc

lemma GoodFrom.hash_correct_getD {n : Nat} {p : String} {l : List Block}
    (h : GoodFrom n p l) :
    ∀ i < l.length, (l.getD i default).hash = (l.getD i default).calculate_hash := by
  induction h with
  | nil => intro i hi; simp at hi
  | cons n p b rest hidx hprev hhash hrest ih =>
      intro i hi
      cases i with
      | zero => exact hhash
      | succ j =>
          rw [List.getD_cons_succ]
          exact ih j (by simp only [List.length_cons] at hi; omega)

lemma GoodFrom.index_getD {n : Nat} {p : String} {l : List Block}
    (h : GoodFrom n p l) :
    ∀ i < l.length, (l.getD i default).index = n + i := by
  induction h with
  | nil => intro i hi; simp at hi
  | cons n p b rest hidx hprev hhash hrest ih =>
      intro i hi
      cases i with
      | zero => simpa using hidx
      | succ j =>
          rw [List.getD_cons_succ]
          rw [ih j (by simp only [List.length_cons] at hi; omega)]
          omega

lemma GoodFrom.head_prev {n : Nat} {p : String} {b : Block} {rest : List Block}
    (h : GoodFrom n p (b :: rest)) : b.previous_hash = p := by
  cases h
  assumption

lemma GoodFrom.link {n : Nat} {p : String} {l : List Block}
    (h : GoodFrom n p l) :
    ∀ i, 0 < i → i < l.length →
      (l.getD i default).previous_hash = (l.getD (i - 1) default).hash := by
  induction h with
  | nil => intro i h0 hi; simp at hi
  | cons n p b rest hidx hprev hhash hrest ih =>
      intro i h0 hi
      cases i with
      | zero => omega
      | succ j =>
          cases j with
          | zero =>
              cases rest with
              | nil => simp at hi
              | cons c r =>
                  simp only [List.getD_cons_succ, Nat.sub_self, List.getD_cons_zero]
                  exact GoodFrom.head_prev hrest
          | succ k =>
              have hrec := ih (k + 1) (by omega)
                (by simp only [List.length_cons] at hi; omega)
              simpa using hrec

/-- Unpacking a successful `VotingBlockchain.new`. -/
lemma new_some_chain {fuel : Nat} {now : String} {bc : VotingBlockchain}
    (h : VotingBlockchain.new fuel now = some bc) :
    ∃ g, bc = { chain := [g], difficulty := 2 } ∧
      g.data = BlockData.genesis "Genesis Block - Matdaan Voting System" ∧
      g.index = 0 ∧ g.previous_hash = "0" ∧ g.hash = g.calculate_hash := by
  simp only [VotingBlockchain.new, VotingBlockchain.create_genesis_block] at h
  cases hm : Block.mine_block 2 fuel
      (Block.make 0 now (BlockData.genesis "Genesis Block - Matdaan Voting System") "0") with
  | none => rw [hm] at h; simp at h
  | some g =>
      rw [hm] at h
      simp only [Option.map_some', List.nil_append, Option.some.injEq] at h
      obtain ⟨h1, h2, h3, h4, h5, h6⟩ := mine_block_spec 2 fuel _ g hm
      refine ⟨g, h.symm, h3, h1, h4, ?_⟩
      rcases h6 with rfl | h6
      · rfl
      · exact h6

/-- Unpacking a successful `VotingBlockchain.add_block`. -/
lemma add_block_some_chain {fuel : Nat} {now : String} {data : BlockData}
    {bc : VotingBlockchain} {b : Block} {bc' : VotingBlockchain}
    (h : bc.add_block fuel now data = some (b, bc')) :
    ∃ latest, bc.chain.getLast? = some latest ∧
      bc' = { bc with chain := bc.chain ++ [b] } ∧
      b.index = bc.chain.length ∧ b.previous_hash = latest.hash ∧
      b.data = data ∧ b.hash = b.calculate_hash := by
  simp only [VotingBlockchain.add_block, VotingBlockchain.get_latest_block] at h
  cases hlast : bc.chain.getLast? with
  | none => rw [hlast] at h; simp at h
  | some latest =>
      rw [hlast] at h
      simp only at h
      cases hm : Block.mine_block bc.difficulty fuel
          (Block.make bc.chain.length now data latest.hash) with
      | none => rw [hm] at h; simp at h
      | some nb =>
          rw [hm] at h
          simp only [Option.map_some', Option.some.injEq, Prod.mk.injEq] at h
          obtain ⟨hb, hbc'⟩ := h
          subst hb
          obtain ⟨h1, h2, h3, h4, h5, h6⟩ := mine_block_spec bc.difficulty fuel _ _ hm
          refine ⟨latest, rfl, hbc'.symm, h1, h4, h3, ?_⟩
          rcases h6 with rfl | h6
          · rfl
          · exact h6

/-- Unpacking a successful `cast_vote_to_blockchain`. -/
lemma cast_vote_some {fuel : Nat} {vote_now block_now transaction_id voter_id : String}
    {election_id candidate_id : Int} {bc : VotingBlockchain}
    {r : CastVoteResult} {bc' : VotingBlockchain}
    (h : cast_vote_to_blockchain fuel vote_now block_now transaction_id
        voter_id election_id candidate_id bc = some (r, bc')) :
    ∃ b, bc.add_block fuel block_now
        (BlockData.vote (sha256hex voter_id) election_id
          (sha256hex (toString candidate_id)) vote_now transaction_id) = some (b, bc') ∧
      r = { success := true, block_hash := b.hash, transaction_hash := transaction_id,
            block_index := b.index, timestamp := b.timestamp } := by
  simp only [cast_vote_to_blockchain] at h
  cases hab : bc.add_block fuel block_now
      (BlockData.vote (sha256hex voter_id) election_id
        (sha256hex (toString candidate_id)) vote_now transaction_id) with
  | none => rw [hab] at h; simp at h
  | some pr =>
      rw [hab] at h
      simp only [Option.map_some', Option.some.injEq, Prod.mk.injEq] at h
      obtain ⟨hr, hbc'⟩ := h
      subst hbc'
      exact ⟨pr.1, rfl, hr.symm⟩

/-- Every reachable chain is nonempty and satisfies the invariant. -/
lemma reachable_good {bc : VotingBlockchain} (h : Reachable bc) :
    bc.chain ≠ [] ∧ GoodFrom 0 "0" bc.chain := by
  induction h with
  | init fuel now bc hnew =>
      obtain ⟨g, hbc, hdata, hidx, hprev, hhash⟩ := new_some_chain hnew
      subst hbc
      exact ⟨by simp, .cons 0 "0" g [] hidx hprev hhash (.nil _ _)⟩
  | step fuel now data bc b bc' hreach hadd ih =>
      obtain ⟨hne, hgood⟩ := ih
      obtain ⟨latest, hlast, hbc', hidx, hprev, hdata, hhash⟩ := add_block_some_chain hadd
      subst hbc'
      refine ⟨by simp, ?_⟩
      apply hgood.append_block b (by omega) ?_ hhash
      rw [hprev]
      simp only [lastHashD, hlast]

/-- The invariant makes the validator succeed. -/
lemma goodFrom_is_chain_valid {bc : VotingBlockchain}
    (h : GoodFrom 0 "0" bc.chain) : bc.is_chain_valid = true := by
  unfold VotingBlockchain.is_chain_valid
  rw [List.all_eq_true]
  intro i hi
  rw [List.mem_range'_1] at hi
  obtain ⟨h1, h2⟩ := hi
  have hlen : i < bc.chain.length := by omega
  simp only [Bool.and_eq_true, beq_iff_eq]
  exact ⟨h.hash_correct_getD i hlen, h.link i (by omega) hlen⟩

/-- Every service-reachable state is reachable by raw `add_block`s. -/
lemma reachableService_reachable {bc : VotingBlockchain}
    (h : ReachableService bc) : Reachable bc := by
  induction h with
  | init fuel now bc hnew => exact .init fuel now bc hnew
  | cast fuel vn bn tx vid eid cid bc r bc' hs hc ih =>
      obtain ⟨b, hab, _⟩ := cast_vote_some hc
      exact .step fuel bn _ bc b bc' ih hab

lemma beBytes_length (k n : Nat) : (beBytes k n).length = k := by
  induction k generalizing n with
  | zero => rfl
  | succ j ih => simp [beBytes, ih]

lemma sha256bytes_length (msg : List Nat) : (sha256bytes msg).length = 32 := by
  unfold sha256bytes
  simp [beBytes_length]

/-- A SHA-256 hex digest is never the empty string (it has 64 characters),
hence always truthy in Python. -/
lemma sha256hex_ne_empty (s : String) : sha256hex s ≠ "" := by
  have h32 := sha256bytes_length (utf8Bytes s)
  unfold sha256hex bytesToHex
  intro hcontra
  cases h : sha256bytes (utf8Bytes s) with
  | nil => rw [h] at h32; simp at h32
  | cons a rest =>
      rw [h] at hcontra
      have hdata : ((a :: rest).flatMap fun b => [hexDigit (b / 16), hexDigit (b % 16)]) = [] := by
        simpa using congrArg String.data hcontra
      simp [List.flatMap_cons] at hdata

/-- Incrementing one candidate count raises the sum of counts by one. -/
lemma bumpCount_sum (counts : List (String × Nat)) (key : String) :
    ((bumpCount counts key).map Prod.snd).sum = ((counts.map Prod.snd)).sum + 1 := by
  induction counts with
  | nil => simp [bumpCount]
  | cons hd tl ih =>
      obtain ⟨k, n⟩ := hd
      unfold bumpCount
      split
      · simp only [List.map_cons, List.sum_cons]
        omega
      · simp only [List.map_cons, List.sum_cons, ih]
        omega

/-- When every grouped block carries a truthy candidate hash, the grouping
fold adds exactly one count per block. -/
lemma counts_fold_sum (blocks : List Block) :
    ∀ counts : List (String × Nat),
      (∀ b ∈ blocks, ∃ ch, b.data.getCandidateHash = some ch ∧ ch ≠ "") →
      (((blocks.foldl
          (fun counts block =>
            match block.data.getCandidateHash with
            | none => counts
            | some candidate_hash =>
                if candidate_hash = "" then counts else bumpCount counts candidate_hash)
          counts)).map Prod.snd).sum = (counts.map Prod.snd).sum + blocks.length := by
  induction blocks with
  | nil => intro counts _; simp
  | cons b tl ih =>
      intro counts hall
      obtain ⟨ch, hch, hne⟩ := hall b (List.mem_cons_self b tl)
      rw [List.foldl_cons]
      simp only [hch]
      rw [if_neg hne]
      rw [ih (bumpCount counts ch) (fun x hx => hall x (List.mem_cons_of_mem b hx))]
      rw [bumpCount_sum]
      simp only [List.length_cons]
      omega

/-- In every service-reachable state, a block either has no candidate
hash (genesis) or a nonempty one (a real SHA-256 digest). -/
lemma reachableService_cand_ok {bc : VotingBlockchain} (h : ReachableService bc) :
    ∀ b ∈ bc.chain, b.data.getCandidateHash = none ∨
      ∃ ch, b.data.getCandidateHash = some ch ∧ ch ≠ "" := by
  induction h with
  | init fuel now bc hnew =>
      obtain ⟨g, hbc, hdata, -, -, -⟩ := new_some_chain hnew
      subst hbc
      intro b hb
      simp only [List.mem_singleton] at hb
      subst hb
      rw [hdata]
      exact Or.inl rfl
  | cast fuel vn bn tx vid eid cid bc r bc' hs hc ih =>
      obtain ⟨b, hab, -⟩ := cast_vote_some hc
      obtain ⟨latest, -, hbc', -, -, hdata, -⟩ := add_block_some_chain hab
      subst hbc'
      intro c hcm
      simp only [List.mem_append, List.mem_singleton] at hcm
      rcases hcm with hcm | rfl
      · exact ih c hcm
      · rw [hdata]
        exact Or.inr ⟨sha256hex (toString cid), rfl, sha256hex_ne_empty _⟩

/-! ## Claim theorems -/

/-- C1: for every chain produced solely via successful `add_block` calls
starting from `VotingBlockchain()`, `is_chain_valid()` returns true. -/
theorem claim1_reachable_chain_valid (bc : VotingBlockchain) (h : Reachable bc) :
    bc.is_chain_valid = true :=
  goodFrom_is_chain_valid (reachable_good h).2

/-- C1 witness: the freshly constructed sample chain is reachable and
validates. -/
theorem claim1_witness : Reachable s0 ∧ s0.is_chain_valid = true :=
  ⟨Reachable.init 5 ts0 s0 (by decide),
   claim1_reachable_chain_valid s0 (Reachable.init 5 ts0 s0 (by decide))⟩

/-- C2: in every reachable chain state, for every index `0 < i < len`,
`chain[i].previous_hash == chain[i-1].hash` and `chain[i].index == i`;
construction and `add_block` preserve the invariant by the reachability
induction. -/
theorem claim2_links_and_indices (bc : VotingBlockchain) (h : Reachable bc)
    (i : Nat) (h0 : 0 < i) (hi : i < bc.chain.length) :
    (bc.chain.getD i default).previous_hash = (bc.chain.getD (i - 1) default).hash ∧
    (bc.chain.getD i default).index = i := by
  have hg := (reachable_good h).2
  refine ⟨hg.link i h0 hi, ?_⟩
  have := hg.index_getD i hi
  omega

/-- C2 witness: the two-block sample chain at index 1. -/
theorem claim2_witness :
    Reachable s1 ∧ 0 < 1 ∧ 1 < s1.chain.length ∧
    ((s1.chain.getD 1 default).previous_hash = (s1.chain.getD 0 default).hash ∧
     (s1.chain.getD 1 default).index = 1) := by
  have h0 : Reachable s0 := Reachable.init 5 ts0 s0 (by decide)
  have h1 : Reachable s1 :=
    Reachable.step 5 bts1 voteData1 s0 voteBlock1 s1 h0 (by decide)
  exact ⟨h1, by decide, by decide,
    claim2_links_and_indices s1 h1 1 (by decide) (by decide)⟩

/-- C3: in every reachable chain state, every stored block hash equals
the lowercase hex SHA-256 digest of the canonical JSON serialization
(sorted keys) of the five fields index, timestamp, data, previous_hash,
nonce — i.e. recomputing `calculate_hash` reproduces the stored hash. -/
theorem claim3_hash_formula (bc : VotingBlockchain) (h : Reachable bc)
    (b : Block) (hb : b ∈ bc.chain) :
    b.hash = sha256hex (blockString b.index b.timestamp b.data b.previous_hash b.nonce) :=
  GoodFrom.hash_correct (reachable_good h).2 b hb

/-- C3 witness: the sample genesis block carries the digest of its own
canonical serialization. -/
theorem claim3_witness :
    Reachable s0 ∧ genesisBlock ∈ s0.chain ∧
    genesisBlock.hash = sha256hex (blockString genesisBlock.index genesisBlock.timestamp
      genesisBlock.data genesisBlock.previous_hash genesisBlock.nonce) :=
  ⟨Reachable.init 5 ts0 s0 (by decide), by decide,
   claim3_hash_formula s0 (Reachable.init 5 ts0 s0 (by decide)) genesisBlock (by decide)⟩

/-- C4: `mine_block` run on two blocks with identical pre-nonce fields,
both starting from nonce 0 with the freshly computed hash, proceeds
identically (same nonce, same hash — the search is a deterministic
function of the fields); and whenever it returns, the sealed hash starts
with `difficulty` zero hex characters and equals the recomputed digest of
the sealed fields. -/
theorem claim4_mine_deterministic_sealed (d fuel : Nat) (b b' : Block)
    (hidx : b'.index = b.index) (hts : b'.timestamp = b.timestamp)
    (hdata : b'.data = b.data) (hprev : b'.previous_hash = b.previous_hash)
    (hn : b.nonce = 0) (hn' : b'.nonce = 0)
    (hh : b.hash = b.calculate_hash) (hh' : b'.hash = b'.calculate_hash) :
    Block.mine_block d fuel b = Block.mine_block d fuel b' ∧
    ∀ r, Block.mine_block d fuel b = some r →
      strTake r.hash d = minedTarget d ∧ r.hash = r.calculate_hash := by
  have hcalc : b.calculate_hash = b'.calculate_hash := by
    unfold Block.calculate_hash
    rw [hidx, hts, hdata, hprev, hn, hn']
  have hnn : b'.nonce = b.nonce := by rw [hn, hn']
  have hhh : b'.hash = b.hash := by rw [hh', hh, hcalc]
  have hbb : b' = b :=
    calc b' = (⟨b'.index, b'.timestamp, b'.data, b'.previous_hash, b'.nonce, b'.hash⟩ : Block) := rfl
      _ = (⟨b.index, b.timestamp, b.data, b.previous_hash, b.nonce, b.hash⟩ : Block) := by
            rw [hidx, hts, hdata, hprev, hnn, hhh]
      _ = b := rfl
  constructor
  · rw [hbb]
  · intro r hr
    refine ⟨(mine_block_spec d fuel b r hr).2.2.2.2.1, ?_⟩
    rcases (mine_block_spec d fuel b r hr).2.2.2.2.2 with rfl | h6
    · exact hh
    · exact h6

/-- C4 witness: mining the sample genesis block at difficulty 2. -/
theorem claim4_witness :
    Block.mine_block 2 5 genesisBlock = Block.mine_block 2 5 genesisBlock ∧
    (strTake genesisBlock.hash 2 = minedTarget 2 ∧
     genesisBlock.hash = genesisBlock.calculate_hash) := by
  have h := claim4_mine_deterministic_sealed 2 5 genesisBlock genesisBlock
    rfl rfl rfl rfl (by decide) (by decide) (by decide) (by decide)
  exact ⟨h.1, h.2 genesisBlock (by decide)⟩

/-- C5 counterexample: a `cast_vote` call with a missing (None) voter
identifier is not rejected with an explicit outcome — the body raises an
uncontrolled AttributeError at `voter_id.encode()`.  This refutes the
claim that every malformed call is surfaced as an explicit outcome and
never as an uncontrolled abort. -/
theorem claim5_counterexample :
    (cast_vote_dyn 5 vts bts1 txid1 none 1 7 s0).1 = PyOutcome.exn "AttributeError" ∧
    ∀ r : CastVoteResult, (cast_vote_dyn 5 vts bts1 txid1 none 1 7 s0).1 ≠ PyOutcome.ok r := by
  refine ⟨rfl, ?_⟩
  intro r h
  simp [cast_vote_dyn] at h

/-- C5 amended: a `cast_vote` call with a missing (None) voter identifier
undergoes no validation; it aborts with an uncontrolled AttributeError
before any Block is built, leaving the chain state unchanged. -/
theorem claim5_missing_voter_aborts (fuel : Nat)
    (vote_now block_now transaction_id : String) (election_id candidate_id : Int)
    (bc : VotingBlockchain) :
    cast_vote_dyn fuel vote_now block_now transaction_id none
      election_id candidate_id bc = (PyOutcome.exn "AttributeError", bc) := rfl

/-- C6: `has_voter_voted(v, e)` is true iff some vote-type block exists
in the chain with `election_id == e` and `voter_hash == SHA256(v)`. -/
theorem claim6_has_voted_iff (bc : VotingBlockchain) (voter_id : String)
    (election_id : Int) :
    has_voter_voted voter_id election_id bc = true ↔
    ∃ b ∈ bc.chain, ∃ ch ts txid,
      b.data = BlockData.vote (sha256hex voter_id) election_id ch ts txid := by
  unfold has_voter_voted VotingBlockchain.get_blocks_by_election
  rw [List.any_eq_true]
  constructor
  · rintro ⟨b, hb, hmatch⟩
    rw [List.mem_filter] at hb
    obtain ⟨hbc, hfilt⟩ := hb
    cases hd : b.data with
    | genesis m =>
        rw [hd] at hmatch
        simp [BlockData.getVoterHash] at hmatch
    | vote vh eid ch ts tx =>
        rw [hd] at hmatch hfilt
        simp only [BlockData.getVoterHash, beq_iff_eq, Option.some.injEq,
          decide_eq_true_eq] at hmatch
        simp only [BlockData.getType, BlockData.getElectionId, Bool.and_eq_true,
          beq_iff_eq, Option.some.injEq] at hfilt
        exact ⟨b, hbc, ch, ts, tx, by rw [hd, hmatch, hfilt.2]⟩
  · rintro ⟨b, hb, ch, ts, tx, hd⟩
    refine ⟨b, ?_, ?_⟩
    · rw [List.mem_filter]
      exact ⟨hb, by simp [hd, BlockData.getType, BlockData.getElectionId]⟩
    · simp [hd, BlockData.getVoterHash]

/-- C7: `get_election_results(e).total_votes` counts exactly the
vote-type blocks with `election_id == e`, and in every service-reachable
state the per-candidate counts sum to that total. -/
theorem claim7_tally_spec (bc : VotingBlockchain) (election_id : Int)
    (h : ReachableService bc) :
    (get_election_results election_id bc).total_votes =
      bc.chain.countP (fun b =>
        b.data.getType == "vote" && b.data.getElectionId == some election_id) ∧
    (((get_election_results election_id bc).vote_distribution.map Prod.snd)).sum =
      (get_election_results election_id bc).total_votes := by
  constructor
  · simp only [get_election_results, VotingBlockchain.get_blocks_by_election]
    rw [List.countP_eq_length_filter]
  · have hall : ∀ b ∈ bc.get_blocks_by_election election_id,
        ∃ ch, b.data.getCandidateHash = some ch ∧ ch ≠ "" := by
      intro b hb
      unfold VotingBlockchain.get_blocks_by_election at hb
      rw [List.mem_filter] at hb
      obtain ⟨hbc, hfilt⟩ := hb
      rcases reachableService_cand_ok h b hbc with hnone | hsome
      · exfalso
        cases hd : b.data with
        | genesis m =>
            rw [hd] at hfilt
            simp [BlockData.getType] at hfilt
        | vote vh eid ch ts tx =>
            rw [hd] at hnone
            simp [BlockData.getCandidateHash] at hnone
      · exact hsome
    simp only [get_election_results]
    rw [counts_fold_sum (bc.get_blocks_by_election election_id) [] hall]
    simp

/-- C7 witness: the freshly constructed sample chain. -/
theorem claim7_witness :
    ReachableService s0 ∧
    ((get_election_results 1 s0).total_votes =
       s0.chain.countP (fun b =>
         b.data.getType == "vote" && b.data.getElectionId == some 1) ∧
     (((get_election_results 1 s0).vote_distribution.map Prod.snd)).sum =
       (get_election_results 1 s0).total_votes) :=
  ⟨ReachableService.init 5 ts0 s0 (by decide),
   claim7_tally_spec s0 1 (ReachableService.init 5 ts0 s0 (by decide))⟩

/-- C8: `verify_vote` on an absent hash returns the not-found outcome
(and, being a total function, never an uncontrolled error); on a present
hash it returns the found outcome with the chain validity flag and the
block index, timestamp and payload. -/
theorem claim8_verify_vote_spec (bc : VotingBlockchain) (block_hash : String) :
    (bc.get_block_by_hash block_hash = none →
      verify_vote block_hash bc = .notFound "Vote not found on blockchain") ∧
    (∀ b, bc.get_block_by_hash block_hash = some b →
      verify_vote block_hash bc =
        .found bc.is_chain_valid b.index b.timestamp b.data
          "Vote verified on blockchain") := by
  constructor
  · intro h
    unfold verify_vote
    rw [h]
  · intro b h
    unfold verify_vote
    rw [h]

/-- C8 witness: an unknown hash on the sample chain is not found; the
genesis hash is found with the validity flag and the block fields. -/
theorem claim8_witness :
    verify_vote "deadbeef" s0 = .notFound "Vote not found on blockchain" ∧
    verify_vote genesisHash s0 =
      .found s0.is_chain_valid genesisBlock.index genesisBlock.timestamp
        genesisBlock.data "Vote verified on blockchain" :=
  ⟨(claim8_verify_vote_spec s0 "deadbeef").1 (by decide),
   (claim8_verify_vote_spec s0 genesisHash).2 genesisBlock (by decide)⟩

/-- C9: every successful `cast_vote` appends exactly one block — the new
chain is the old chain plus one block, so the length grows by one and
every previously stored block is unchanged in all fields. -/
theorem claim9_cast_vote_frame (fuel : Nat)
    (vote_now block_now transaction_id voter_id : String)
    (election_id candidate_id : Int) (bc : VotingBlockchain)
    (r : CastVoteResult) (bc' : VotingBlockchain)
    (h : cast_vote_to_blockchain fuel vote_now block_now transaction_id
        voter_id election_id candidate_id bc = some (r, bc')) :
    bc'.chain.length = bc.chain.length + 1 ∧
    (∃ nb, bc'.chain = bc.chain ++ [nb]) ∧
    ∀ i < bc.chain.length, bc'.chain.getD i default = bc.chain.getD i default := by
  obtain ⟨b, hab, -⟩ := cast_vote_some h
  obtain ⟨latest, -, hbc', -, -, -, -⟩ := add_block_some_chain hab
  subst hbc'
  refine ⟨by simp, ⟨b, rfl⟩, ?_⟩
  intro i hi
  exact List.getD_append _ _ _ _ hi

/-- C9 witness: the sample cast vote takes the one-block chain to the
two-block chain. -/
theorem claim9_witness :
    s1.chain.length = s0.chain.length + 1 ∧
    (∃ nb, s1.chain = s0.chain ++ [nb]) ∧
    ∀ i < s0.chain.length, s1.chain.getD i default = s0.chain.getD i default :=
  claim9_cast_vote_frame 5 vts bts1 txid1 "voterA" 1 7 s0 castResult1 s1 (by decide)

/-- C10: `is_chain_valid` never checks the genesis block against its own
recomputed hash: a chain state whose genesis data was altered while its
stored hash was kept still validates. -/
theorem claim10_genesis_unchecked :
    tamperedGenesis.hash ≠ tamperedGenesis.calculate_hash ∧
    tamperedChain.is_chain_valid = true := by
  constructor
  · decide
  · rfl

end OVM
